import Mathlib

/-!
# Verification of the `safedown` shutdown coordinator

A shallow embedding of the Go package `safedown` (Graphmasters/safedown).
The package collects zero-argument shutdown actions, runs them exactly once
— triggered either by an OS signal or by an explicit `Shutdown()` call —
in a configurable order, and lets callers wait for completion.

Two versions of the coordinator appear in the repository and are embedded
in separate namespaces:

* `Safedown` — the version with a completion channel (`shutdownCh`) and a
  `Wait` method; coordinators here are always constructed via
  `NewShutdownActions`.
* `SafedownInit` — the version exposing `Initialise` for in-place
  construction, whose `Initialise` and `Shutdown` panic on misuse
  (double initialisation, shutdown before initialisation).

Actions are modelled by natural-number identifiers; executing an action is
recorded as an event in a trace.  Each public operation of the Go API
becomes an atomic state transformer, and a coordinator lifetime is a fold
of such operations from the freshly constructed state.
-/

set_option autoImplicit false

namespace Safedown

/-- Go: `type Order bool` — the order shutdown actions are executed in. -/
abbrev Order := Bool

/-- Go: `FirstInFirstDone Order = true` — actions run in the order added. -/
def FirstInFirstDone : Order := true

/-- Go: `FirstInLastDone Order = false` — actions run in reverse order. -/
def FirstInLastDone : Order := false

/-- The sequence of actions executed by the loop in `shutdown`:
`l := len(actions); for i < l: if order == FirstInFirstDone then actions[i]
else actions[l-i-1]`. -/
def shutdownRunList (order : Order) (actions : List Nat) : List Nat :=
  (List.range actions.length).map fun i =>
    if order = FirstInFirstDone then actions.getD i 0
    else actions.getD (actions.length - i - 1) 0

theorem shutdownRunList_length (order : Order) (actions : List Nat) :
    (shutdownRunList order actions).length = actions.length := by
  simp [shutdownRunList]

theorem shutdownRunList_fifo (actions : List Nat) :
    shutdownRunList FirstInFirstDone actions = actions := by
  apply List.ext_getElem
  · simp [shutdownRunList]
  · intro i h1 h2
    simp only [shutdownRunList, List.getElem_map, List.getElem_range, if_pos rfl]
    exact actions.getD_eq_getElem 0 h2

theorem shutdownRunList_lifo (actions : List Nat) :
    shutdownRunList FirstInLastDone actions = actions.reverse := by
  apply List.ext_getElem
  · simp [shutdownRunList]
  · intro i h1 h2
    have hlen : i < actions.length := by simpa [shutdownRunList] using h1
    simp only [shutdownRunList, List.getElem_map, List.getElem_range]
    rw [if_neg (by simp [FirstInFirstDone, FirstInLastDone])]
    rw [List.getElem_reverse]
    rw [show actions.length - i - 1 = actions.length - 1 - i by omega]
    exact actions.getD_eq_getElem 0 (by omega)

/-- Each action value occurs in the run list exactly as often as it was
registered, for either order. -/
theorem shutdownRunList_count (order : Order) (actions : List Nat) (a : Nat) :
    (shutdownRunList order actions).count a = actions.count a := by
  cases order
  · rw [show (false : Order) = FirstInLastDone from rfl, shutdownRunList_lifo,
      List.count_reverse]
  · rw [show (true : Order) = FirstInFirstDone from rfl, shutdownRunList_fifo]

/-- Observable events of a coordinator lifetime, recorded in order:
execution of a registered action, invocation of the on-signal hook with
the received signal, and closing of the completion channel `shutdownCh`. -/
inductive Event where
  | run : Nat → Event
  | hook : Nat → Event
  | closeShutdownCh : Event
deriving DecidableEq, Repr

/-- State of a `ShutdownActions` value (the version with `Wait`).  The Go
fields `stopCh`/`stopOnce` collapse to `stopClosed` (the once fires exactly
when the channel is closed), and `shutdownCh`/`shutdownOnce` are reflected
through `shutdownDone` and the `closeShutdownCh` trace event.  The fields
`listenerStarted`/`listeningSignals` record whether the constructor spawned
the signal-listening goroutine and which signals it subscribed to. -/
structure ShutdownActions where
  order : Order
  actions : List Nat
  onSignalFunc : Option Nat
  stopClosed : Bool
  shutdownDone : Bool
  listenerStarted : Bool
  listeningSignals : List Nat
  trace : List Event
deriving DecidableEq, Repr

/-- Go `closeStopCh`: `stopOnce.Do(func() { close(stopCh) })`. -/
def closeStopCh (sa : ShutdownActions) : ShutdownActions :=
  if sa.stopClosed then sa else { sa with stopClosed := true }

/-- Go `NewShutdownActions(order, signals...)`: builds the struct with a
fresh stop and shutdown channel; with no signals it closes the stop channel
and returns, otherwise it subscribes to `signals` and starts the listener
goroutine. -/
def NewShutdownActions (order : Order) (signals : List Nat) : ShutdownActions :=
  let sa : ShutdownActions :=
    { order := order, actions := [], onSignalFunc := none, stopClosed := false,
      shutdownDone := false, listenerStarted := false, listeningSignals := [],
      trace := [] }
  if signals.length = 0 then closeStopCh sa
  else { sa with listenerStarted := true, listeningSignals := signals }

/-- Go `AddActions(actions...)`: appends to the action slice under lock. -/
def AddActions (sa : ShutdownActions) (acts : List Nat) : ShutdownActions :=
  { sa with actions := sa.actions ++ acts }

/-- Go `SetOnSignal(onSignal)`: replaces the hook under lock. -/
def SetOnSignal (sa : ShutdownActions) (f : Option Nat) : ShutdownActions :=
  { sa with onSignalFunc := f }

/-- Go `shutdown`: `shutdownOnce.Do(...)` — on first call, runs the actions
per the order and then closes `shutdownCh`; later calls do nothing. -/
def shutdown (sa : ShutdownActions) : ShutdownActions :=
  if sa.shutdownDone then sa
  else
    { sa with
        shutdownDone := true
        trace := sa.trace ++ (shutdownRunList sa.order sa.actions).map Event.run
          ++ [Event.closeShutdownCh] }

/-- Go `Shutdown()`: `closeStopCh(); shutdown()`. -/
def Shutdown (sa : ShutdownActions) : ShutdownActions :=
  shutdown (closeStopCh sa)

/-- Go `onSignal(s)`: returns if `s` is nil or no hook is set, otherwise
calls the hook with `s` (observed as a `hook` event). -/
def onSignal (sa : ShutdownActions) (s : Option Nat) : ShutdownActions :=
  match s with
  | none => sa
  | some sig =>
    match sa.onSignalFunc with
    | none => sa
    | some _ => { sa with trace := sa.trace ++ [Event.hook sig] }

/-- The body of the listener goroutine once a watched signal is received:
`closeStopCh(); onSignal(received); shutdown()`. -/
def listenerReceives (sa : ShutdownActions) (sig : Nat) : ShutdownActions :=
  shutdown (onSignal (closeStopCh sa) (some sig))

/-- An atomic interaction with the coordinator: an explicit `Shutdown()`
call, the arrival of an OS signal, an `AddActions` call, or a
`SetOnSignal` call.  (`Wait` does not change the state.) -/
inductive Op where
  | shutdown : Op
  | signalArrives : Nat → Op
  | addActions : List Nat → Op
  | setOnSignal : Option Nat → Op
deriving DecidableEq, Repr

/-- Effect of one operation.  A signal arrival only reaches the listener
goroutine when the listener was started, the signal is one of those
subscribed to, and the listener has not yet been told to stop. -/
def applyOp (sa : ShutdownActions) : Op → ShutdownActions
  | .shutdown => Shutdown sa
  | .signalArrives sig =>
    if sa.listenerStarted = true ∧ sig ∈ sa.listeningSignals ∧ sa.stopClosed = false
    then listenerReceives sa sig else sa
  | .addActions acts => AddActions sa acts
  | .setOnSignal f => SetOnSignal sa f

/-- A coordinator lifetime: the fold of a finite operation sequence. -/
def execOps (sa : ShutdownActions) (ops : List Op) : ShutdownActions :=
  ops.foldl applyOp sa

/-- `op` fires the primary run when applied in state `sa`: it is an
explicit `Shutdown()` call, or a watched signal delivered to the still
listening goroutine. -/
def Triggers (sa : ShutdownActions) : Op → Prop
  | .shutdown => True
  | .signalArrives sig =>
    sa.listenerStarted = true ∧ sig ∈ sa.listeningSignals ∧ sa.stopClosed = false
  | .addActions _ => False
  | .setOnSignal _ => False

/-- The action executions recorded in a trace, in order. -/
def runEvents (tr : List Event) : List Nat :=
  tr.filterMap fun e =>
    match e with
    | .run a => some a
    | _ => none

/-- `Wait()` (`<-sa.shutdownCh`) returns exactly when the shutdown channel
has been closed. -/
def WaitReturns (sa : ShutdownActions) : Prop :=
  Event.closeShutdownCh ∈ sa.trace

instance (sa : ShutdownActions) : Decidable (WaitReturns sa) := by
  unfold WaitReturns; infer_instance

theorem closeStopCh_eq (sa : ShutdownActions) :
    closeStopCh sa = { sa with stopClosed := true } := by
  unfold closeStopCh
  split
  · next h =>
    cases sa
    simp_all
  · rfl

theorem shutdown_eq_of_not_done (sa : ShutdownActions) (h : sa.shutdownDone = false) :
    shutdown sa = { sa with
      shutdownDone := true
      trace := sa.trace ++ (shutdownRunList sa.order sa.actions).map Event.run
        ++ [Event.closeShutdownCh] } := by
  unfold shutdown
  rw [if_neg (by simp [h])]

theorem shutdown_eq_of_done (sa : ShutdownActions) (h : sa.shutdownDone = true) :
    shutdown sa = sa := by
  unfold shutdown
  rw [if_pos h]

theorem Shutdown_eq_of_not_done (sa : ShutdownActions) (h : sa.shutdownDone = false) :
    Shutdown sa = { sa with
      stopClosed := true
      shutdownDone := true
      trace := sa.trace ++ (shutdownRunList sa.order sa.actions).map Event.run
        ++ [Event.closeShutdownCh] } := by
  unfold Shutdown
  rw [closeStopCh_eq, shutdown_eq_of_not_done _ (by simpa using h)]

theorem Shutdown_eq_of_done (sa : ShutdownActions) (hd : sa.shutdownDone = true) :
    Shutdown sa = { sa with stopClosed := true } := by
  unfold Shutdown
  rw [closeStopCh_eq, shutdown_eq_of_done _ (by simpa using hd)]

theorem onSignal_some_hooked (sa : ShutdownActions) (sig f : Nat)
    (h : sa.onSignalFunc = some f) :
    onSignal sa (some sig) = { sa with trace := sa.trace ++ [Event.hook sig] } := by
  unfold onSignal
  rw [h]

theorem onSignal_some_unhooked (sa : ShutdownActions) (sig : Nat)
    (h : sa.onSignalFunc = none) :
    onSignal sa (some sig) = sa := by
  unfold onSignal
  rw [h]

theorem listenerReceives_hooked (sa : ShutdownActions) (sig f : Nat)
    (hd : sa.shutdownDone = false) (hf : sa.onSignalFunc = some f) :
    listenerReceives sa sig = { sa with
      stopClosed := true
      shutdownDone := true
      trace := (sa.trace ++ [Event.hook sig])
        ++ (shutdownRunList sa.order sa.actions).map Event.run
        ++ [Event.closeShutdownCh] } := by
  unfold listenerReceives
  rw [closeStopCh_eq, onSignal_some_hooked _ sig f (by simpa using hf),
    shutdown_eq_of_not_done _ (by simpa using hd)]

theorem listenerReceives_unhooked (sa : ShutdownActions) (sig : Nat)
    (hd : sa.shutdownDone = false) (hf : sa.onSignalFunc = none) :
    listenerReceives sa sig = { sa with
      stopClosed := true
      shutdownDone := true
      trace := sa.trace ++ (shutdownRunList sa.order sa.actions).map Event.run
        ++ [Event.closeShutdownCh] } := by
  unfold listenerReceives
  rw [closeStopCh_eq, onSignal_some_unhooked _ sig (by simpa using hf),
    shutdown_eq_of_not_done _ (by simpa using hd)]

theorem execOps_append (sa : ShutdownActions) (l1 l2 : List Op) :
    execOps sa (l1 ++ l2) = execOps (execOps sa l1) l2 :=
  List.foldl_append _ _ _ _

theorem execOps_cons (sa : ShutdownActions) (op : Op) (ops : List Op) :
    execOps sa (op :: ops) = execOps (applyOp sa op) ops := rfl

theorem execOps_invariant (P : ShutdownActions → Prop)
    (h : ∀ sa op, P sa → P (applyOp sa op)) (sa : ShutdownActions)
    (hsa : P sa) (ops : List Op) : P (execOps sa ops) := by
  induction ops generalizing sa with
  | nil => exact hsa
  | cons op ops ih => exact ih _ (h _ _ hsa)

/-- `applyOp` never changes the order, and never resets `shutdownDone`. -/
theorem applyOp_order (sa : ShutdownActions) (op : Op) :
    (applyOp sa op).order = sa.order := by
  cases op with
  | shutdown =>
    cases hd : sa.shutdownDone
    · rw [applyOp, Shutdown_eq_of_not_done _ hd]
    · rw [applyOp, Shutdown_eq_of_done _ hd]
  | signalArrives sig =>
    rw [applyOp]
    split
    · cases hd : sa.shutdownDone
      · cases hf : sa.onSignalFunc with
        | none => rw [listenerReceives_unhooked _ sig hd hf]
        | some f => rw [listenerReceives_hooked _ sig f hd hf]
      · unfold listenerReceives
        rw [closeStopCh_eq]
        unfold onSignal
        cases sa.onSignalFunc <;> simp <;> rw [shutdown_eq_of_done _ (by simpa using hd)]
    · rfl
  | addActions acts => rfl
  | setOnSignal f => rfl

theorem applyOp_done_mono (sa : ShutdownActions) (op : Op)
    (h : sa.shutdownDone = true) : (applyOp sa op).shutdownDone = true := by
  cases op with
  | shutdown =>
    rw [applyOp, Shutdown_eq_of_done _ h]
    exact h
  | signalArrives sig =>
    rw [applyOp]
    split
    · unfold listenerReceives
      rw [closeStopCh_eq]
      unfold onSignal
      cases sa.onSignalFunc <;> simp <;>
        rw [shutdown_eq_of_done _ (by simpa using h)] <;> exact h
    · exact h
  | addActions acts => exact h
  | setOnSignal f => exact h

/-- Once the primary run has happened and the stop channel is closed, no
further operation changes the trace or either flag. -/
theorem applyOp_frozen (sa : ShutdownActions) (op : Op)
    (hd : sa.shutdownDone = true) (hs : sa.stopClosed = true) :
    applyOp sa op = { sa with
      actions := (applyOp sa op).actions
      onSignalFunc := (applyOp sa op).onSignalFunc } := by
  cases op with
  | shutdown =>
    rw [applyOp, Shutdown_eq_of_done _ hd]
    cases sa
    simp_all
  | signalArrives sig =>
    rw [applyOp]
    rw [if_neg (by simp [hs])]
  | addActions acts =>
    rw [applyOp]
    unfold AddActions
    cases sa
    simp
  | setOnSignal f =>
    rw [applyOp]
    unfold SetOnSignal
    cases sa
    simp

theorem execOps_frozen (sa : ShutdownActions) (ops : List Op)
    (hd : sa.shutdownDone = true) (hs : sa.stopClosed = true) :
    (execOps sa ops).trace = sa.trace ∧ (execOps sa ops).shutdownDone = true
      ∧ (execOps sa ops).stopClosed = true := by
  have key := execOps_invariant
    (fun s => s.trace = sa.trace ∧ s.shutdownDone = true ∧ s.stopClosed = true)
    (by
      intro s op ⟨h1, h2, h3⟩
      rw [applyOp_frozen s op h2 h3]
      exact ⟨h1, h2, h3⟩)
    sa ⟨rfl, hd, hs⟩ ops
  exact key

theorem shutdown_done (sa : ShutdownActions) : (shutdown sa).shutdownDone = true := by
  unfold shutdown
  split
  · next h => simpa using h
  · rfl

theorem Shutdown_done (sa : ShutdownActions) : (Shutdown sa).shutdownDone = true :=
  shutdown_done _

theorem listenerReceives_done (sa : ShutdownActions) (sig : Nat) :
    (listenerReceives sa sig).shutdownDone = true :=
  shutdown_done _

theorem NewShutdownActions_trace (order : Order) (signals : List Nat) :
    (NewShutdownActions order signals).trace = [] := by
  unfold NewShutdownActions
  split
  · rw [closeStopCh_eq]
  · rfl

theorem NewShutdownActions_done (order : Order) (signals : List Nat) :
    (NewShutdownActions order signals).shutdownDone = false := by
  unfold NewShutdownActions
  split
  · rw [closeStopCh_eq]
  · rfl

theorem NewShutdownActions_order (order : Order) (signals : List Nat) :
    (NewShutdownActions order signals).order = order := by
  unfold NewShutdownActions
  split
  · rw [closeStopCh_eq]
  · rfl

theorem execOps_order_init (order : Order) (signals : List Nat) (ops : List Op) :
    (execOps (NewShutdownActions order signals) ops).order = order := by
  exact execOps_invariant (fun s => s.order = order)
    (fun s op h => (applyOp_order s op).trans h)
    _ (NewShutdownActions_order order signals) ops

/-- Nothing is executed, no hook runs, and the completion channel stays
open, as long as the primary run has not fired: the trace is empty. -/
theorem trace_empty_of_not_done (order : Order) (signals : List Nat) (ops : List Op)
    (h : (execOps (NewShutdownActions order signals) ops).shutdownDone = false) :
    (execOps (NewShutdownActions order signals) ops).trace = [] := by
  have key := execOps_invariant (fun s => s.shutdownDone = false → s.trace = [])
    (by
      intro s op ih hres
      cases hd : s.shutdownDone with
      | true => rw [applyOp_done_mono s op hd] at hres; cases hres
      | false =>
        have htr := ih hd
        cases op with
        | shutdown => rw [applyOp, Shutdown_done] at hres; cases hres
        | signalArrives sig =>
          rw [applyOp] at hres ⊢
          split at hres
          · rw [listenerReceives_done] at hres; cases hres
          · next h' => rw [if_neg h']; exact htr
        | addActions acts => exact htr
        | setOnSignal f => exact htr)
    _ (fun _ => NewShutdownActions_trace order signals) ops
  exact key h

theorem count_close_map_run (l : List Nat) :
    ((l.map Event.run).count Event.closeShutdownCh) = 0 := by
  rw [List.count_eq_zero]
  simp

/-- When a signal is delivered after the primary run has already happened,
the only state change is the stop flag (and possibly one hook event). -/
theorem listenerReceives_of_done (sa : ShutdownActions) (sig : Nat)
    (hd : sa.shutdownDone = true) :
    listenerReceives sa sig = { sa with stopClosed := true }
    ∨ listenerReceives sa sig = { sa with
        stopClosed := true
        trace := sa.trace ++ [Event.hook sig] } := by
  unfold listenerReceives
  rw [closeStopCh_eq]
  cases hf : sa.onSignalFunc with
  | none =>
    left
    rw [onSignal_some_unhooked _ sig rfl, shutdown_eq_of_done _ (by simpa using hd)]
  | some f =>
    right
    rw [onSignal_some_hooked _ sig f rfl, shutdown_eq_of_done _ (by simpa using hd)]

theorem close_count_step (s : ShutdownActions) (op : Op)
    (i0 : s.shutdownDone = false → s.trace.count Event.closeShutdownCh = 0)
    (i1 : s.shutdownDone = true → s.trace.count Event.closeShutdownCh = 1) :
    ((applyOp s op).shutdownDone = false →
      ((applyOp s op).trace).count Event.closeShutdownCh = 0)
    ∧ ((applyOp s op).shutdownDone = true →
      ((applyOp s op).trace).count Event.closeShutdownCh = 1) := by
  cases op with
  | shutdown =>
    cases hd : s.shutdownDone with
    | false =>
      rw [applyOp, Shutdown_eq_of_not_done _ hd]
      constructor
      · intro h
        simp_all
      · intro _
        simp [List.count_append, count_close_map_run, i0 hd]
    | true =>
      rw [applyOp, Shutdown_eq_of_done _ hd]
      exact ⟨i0, i1⟩
  | signalArrives sig =>
    rw [applyOp]
    split
    · cases hd : s.shutdownDone with
      | false =>
        cases hf : s.onSignalFunc with
        | none =>
          rw [listenerReceives_unhooked _ sig hd hf]
          constructor
          · intro h
            simp_all
          · intro _
            simp [List.count_append, count_close_map_run, i0 hd]
        | some f =>
          rw [listenerReceives_hooked _ sig f hd hf]
          constructor
          · intro h
            simp_all
          · intro _
            simp [List.count_append, count_close_map_run, i0 hd]
      | true =>
        rcases listenerReceives_of_done s sig hd with heq | heq <;> rw [heq]
        · constructor
          · intro h
            simp_all
          · intro _
            simpa using i1 hd
        · constructor
          · intro h
            simp_all
          · intro _
            simp [List.count_append, i1 hd]
    · exact ⟨i0, i1⟩
  | addActions acts => exact ⟨i0, i1⟩
  | setOnSignal f => exact ⟨i0, i1⟩

/-- The completion channel is closed at most once over any lifetime, and
exactly once as soon as the primary run has fired. -/
theorem close_count_done (order : Order) (signals : List Nat) (ops : List Op) :
    ((execOps (NewShutdownActions order signals) ops).shutdownDone = false →
      ((execOps (NewShutdownActions order signals) ops).trace).count Event.closeShutdownCh = 0)
    ∧ ((execOps (NewShutdownActions order signals) ops).shutdownDone = true →
      ((execOps (NewShutdownActions order signals) ops).trace).count Event.closeShutdownCh = 1) := by
  refine execOps_invariant
    (fun s => (s.shutdownDone = false → s.trace.count Event.closeShutdownCh = 0)
      ∧ (s.shutdownDone = true → s.trace.count Event.closeShutdownCh = 1))
    (fun s op h => close_count_step s op h.1 h.2) _ ⟨?_, ?_⟩ ops
  · intro _
    rw [NewShutdownActions_trace]
    rfl
  · intro h
    rw [NewShutdownActions_done] at h
    cases h

theorem runEvents_append (t1 t2 : List Event) :
    runEvents (t1 ++ t2) = runEvents t1 ++ runEvents t2 :=
  List.filterMap_append _ _ _

theorem runEvents_map_run (l : List Nat) : runEvents (l.map Event.run) = l := by
  induction l with
  | nil => rfl
  | cons a l ih =>
    show a :: runEvents (l.map Event.run) = a :: l
    rw [ih]

/-- Core lemma: a first trigger (explicit `Shutdown` or a delivered watched
signal) produces the trace `hp ++ run-list ++ [closeShutdownCh]`, where
`hp` is the hook invocation (present exactly when the trigger was a signal
and a hook was set), the run-list is the snapshot of registered actions in
the configured order, and nothing is ever appended afterwards. -/
theorem exec_trigger_core (order : Order) (signals : List Nat) (pre post : List Op) (op : Op)
    (h1 : (execOps (NewShutdownActions order signals) pre).shutdownDone = false)
    (h2 : Triggers (execOps (NewShutdownActions order signals) pre) op) :
    ∃ hp : List Event,
      (execOps (NewShutdownActions order signals) (pre ++ op :: post)).trace
        = hp ++ (shutdownRunList order (execOps (NewShutdownActions order signals) pre).actions).map Event.run
          ++ [Event.closeShutdownCh]
      ∧ runEvents hp = []
      ∧ Event.closeShutdownCh ∉ hp
      ∧ (op = Op.shutdown → hp = [])
      ∧ (∀ sig f : Nat, op = Op.signalArrives sig →
          (execOps (NewShutdownActions order signals) pre).onSignalFunc = some f →
          hp = [Event.hook sig]) := by
  have hsplit : execOps (NewShutdownActions order signals) (pre ++ op :: post)
      = execOps (applyOp (execOps (NewShutdownActions order signals) pre) op) post := by
    rw [execOps_append]
    rfl
  have htr : (execOps (NewShutdownActions order signals) pre).trace = [] :=
    trace_empty_of_not_done order signals pre h1
  have hor : (execOps (NewShutdownActions order signals) pre).order = order :=
    execOps_order_init order signals pre
  cases op with
  | shutdown =>
    refine ⟨[], ?_, rfl, (by simp), (fun _ => rfl), (fun sig f h => nomatch h)⟩
    rw [hsplit, applyOp, Shutdown_eq_of_not_done _ h1]
    rw [(execOps_frozen _ post rfl rfl).1]
    simp [htr, hor]
  | signalArrives sig =>
    obtain ⟨g1, g2, g3⟩ := h2
    cases hf : (execOps (NewShutdownActions order signals) pre).onSignalFunc with
    | none =>
      refine ⟨[], ?_, rfl, (by simp), (fun h => nomatch h), ?_⟩
      · rw [hsplit, applyOp, if_pos ⟨g1, g2, g3⟩, listenerReceives_unhooked _ sig h1 hf]
        rw [(execOps_frozen _ post rfl rfl).1]
        simp [htr, hor]
      · intro sig' f' heq hf'
        exact Option.noConfusion hf'
    | some f =>
      refine ⟨[Event.hook sig], ?_, rfl, (by simp), (fun h => nomatch h), ?_⟩
      · rw [hsplit, applyOp, if_pos ⟨g1, g2, g3⟩, listenerReceives_hooked _ sig f h1 hf]
        rw [(execOps_frozen _ post rfl rfl).1]
        simp [htr, hor]
      · intro sig' f' heq hf'
        injection heq with hinj
        rw [hinj]
  | addActions acts => exact False.elim h2
  | setOnSignal f => exact False.elim h2

theorem mem_shutdownRunList (order : Order) (l : List Nat) (a : Nat) :
    a ∈ shutdownRunList order l ↔ a ∈ l := by
  cases order
  · rw [show (false : Order) = FirstInLastDone from rfl, shutdownRunList_lifo,
      List.mem_reverse]
  · rw [show (true : Order) = FirstInFirstDone from rfl, shutdownRunList_fifo]

theorem runEvents_close : runEvents [Event.closeShutdownCh] = [] := rfl

/-- C1: over any finite sequence of operations, once a first trigger
(explicit `Shutdown` or delivered watched signal) fires, every action
registered before it is executed exactly once — the multiset of executed
actions equals the registration snapshot — and the primary run happens at
most once over the whole lifetime: the completion event that ends each
primary run occurs exactly once after a trigger, and never more than once
in any lifetime whatsoever. -/
theorem claim_primary_run_exactly_once (order : Order) (signals : List Nat)
    (pre post : List Op) (op : Op)
    (h1 : (execOps (NewShutdownActions order signals) pre).shutdownDone = false)
    (h2 : Triggers (execOps (NewShutdownActions order signals) pre) op) :
    (∀ a : Nat,
      (runEvents (execOps (NewShutdownActions order signals) (pre ++ op :: post)).trace).count a
        = ((execOps (NewShutdownActions order signals) pre).actions).count a)
    ∧ ((execOps (NewShutdownActions order signals) (pre ++ op :: post)).trace).count
        Event.closeShutdownCh = 1
    ∧ (∀ ops : List Op,
        ((execOps (NewShutdownActions order signals) ops).trace).count
          Event.closeShutdownCh ≤ 1) := by
  obtain ⟨hp, heq, hrun, hcl, _, _⟩ := exec_trigger_core order signals pre post op h1 h2
  refine ⟨?_, ?_, ?_⟩
  · intro a
    rw [heq, runEvents_append, runEvents_append, hrun, runEvents_map_run, runEvents_close]
    simp [shutdownRunList_count]
  · rw [heq]
    simp [List.count_append, count_close_map_run, List.count_eq_zero.mpr hcl]
  · intro ops
    rcases close_count_done order signals ops with ⟨k0, k1⟩
    cases hd : (execOps (NewShutdownActions order signals) ops).shutdownDone with
    | false =>
      rw [k0 hd]
      exact Nat.zero_le 1
    | true =>
      rw [k1 hd]

/-- C2: the primary run executes the snapshot of registered actions in
registration order when the order is `FirstInFirstDone`, and in reverse
registration order when the order is `FirstInLastDone`. -/
theorem claim_primary_run_order (order : Order) (signals : List Nat)
    (pre post : List Op) (op : Op)
    (h1 : (execOps (NewShutdownActions order signals) pre).shutdownDone = false)
    (h2 : Triggers (execOps (NewShutdownActions order signals) pre) op) :
    (order = FirstInFirstDone →
      runEvents (execOps (NewShutdownActions order signals) (pre ++ op :: post)).trace
        = (execOps (NewShutdownActions order signals) pre).actions)
    ∧ (order = FirstInLastDone →
      runEvents (execOps (NewShutdownActions order signals) (pre ++ op :: post)).trace
        = ((execOps (NewShutdownActions order signals) pre).actions).reverse) := by
  obtain ⟨hp, heq, hrun, _, _, _⟩ := exec_trigger_core order signals pre post op h1 h2
  have key : runEvents (execOps (NewShutdownActions order signals) (pre ++ op :: post)).trace
      = shutdownRunList order (execOps (NewShutdownActions order signals) pre).actions := by
    rw [heq, runEvents_append, runEvents_append, hrun, runEvents_map_run, runEvents_close]
    simp
  constructor
  · intro ho
    rw [key, ho, shutdownRunList_fifo]
  · intro ho
    rw [key, ho, shutdownRunList_lifo]

/-- C3: after a trigger, the completion channel close is the last event of
the trace — it happens exactly once, strictly after every primary action
has returned — so `Wait()` (which returns exactly when the channel is
closed) returns only after all primary actions have returned; and while no
trigger has fired, `Wait()` blocks. -/
theorem claim_wait_after_completion (order : Order) (signals : List Nat)
    (pre post : List Op) (op : Op)
    (h1 : (execOps (NewShutdownActions order signals) pre).shutdownDone = false)
    (h2 : Triggers (execOps (NewShutdownActions order signals) pre) op) :
    (∃ t : List Event,
      (execOps (NewShutdownActions order signals) (pre ++ op :: post)).trace
        = t ++ [Event.closeShutdownCh]
      ∧ runEvents t
        = shutdownRunList order (execOps (NewShutdownActions order signals) pre).actions
      ∧ Event.closeShutdownCh ∉ t)
    ∧ ((execOps (NewShutdownActions order signals) (pre ++ op :: post)).trace).count
        Event.closeShutdownCh = 1
    ∧ WaitReturns (execOps (NewShutdownActions order signals) (pre ++ op :: post))
    ∧ (∀ ops : List Op,
        (execOps (NewShutdownActions order signals) ops).shutdownDone = false →
        ¬ WaitReturns (execOps (NewShutdownActions order signals) ops)) := by
  obtain ⟨hp, heq, hrun, hcl, _, _⟩ := exec_trigger_core order signals pre post op h1 h2
  refine ⟨⟨hp ++ (shutdownRunList order
      (execOps (NewShutdownActions order signals) pre).actions).map Event.run, ?_, ?_, ?_⟩,
    ?_, ?_, ?_⟩
  · rw [heq]
  · rw [runEvents_append, hrun, runEvents_map_run]
    simp
  · intro hmem
    rcases List.mem_append.1 hmem with hmem | hmem
    · exact hcl hmem
    · rcases List.mem_map.1 hmem with ⟨b, _, hba⟩
      exact Event.noConfusion hba
  · rw [heq]
    simp [List.count_append, count_close_map_run, List.count_eq_zero.mpr hcl]
  · unfold WaitReturns
    rw [heq]
    simp
  · intro ops hdone
    unfold WaitReturns
    rw [trace_empty_of_not_done order signals ops hdone]
    simp

/-- C4: when the run is triggered by a watched signal and a hook is set,
the hook is invoked exactly once, with the received signal, before the
primary actions run (the trace is exactly `hook sig` followed by the runs
and the completion close); when the run is triggered by an explicit
`Shutdown()` call, no hook is ever invoked in the whole lifetime. -/
theorem claim_on_signal_hook (order : Order) (signals : List Nat)
    (pre post : List Op) (sig f : Nat)
    (h1 : (execOps (NewShutdownActions order signals) pre).shutdownDone = false)
    (h2 : (execOps (NewShutdownActions order signals) pre).onSignalFunc = some f)
    (h3 : (execOps (NewShutdownActions order signals) pre).listenerStarted = true)
    (h4 : sig ∈ (execOps (NewShutdownActions order signals) pre).listeningSignals)
    (h5 : (execOps (NewShutdownActions order signals) pre).stopClosed = false) :
    (execOps (NewShutdownActions order signals) (pre ++ Op.signalArrives sig :: post)).trace
      = Event.hook sig
        :: ((shutdownRunList order (execOps (NewShutdownActions order signals) pre).actions).map
            Event.run ++ [Event.closeShutdownCh])
    ∧ (∀ post' : List Op, ∀ g : Nat,
        Event.hook g ∉
          (execOps (NewShutdownActions order signals) (pre ++ Op.shutdown :: post')).trace) := by
  constructor
  · obtain ⟨hp, heq, _, _, _, hsig⟩ :=
      exec_trigger_core order signals pre post (Op.signalArrives sig) h1 ⟨h3, h4, h5⟩
    rw [heq, hsig sig f rfl h2]
    simp
  · intro post' g
    obtain ⟨hp, heq, _, _, hsh, _⟩ :=
      exec_trigger_core order signals pre post' Op.shutdown h1 trivial
    rw [heq, hsh rfl]
    intro hmem
    simp only [List.nil_append, List.mem_append] at hmem
    rcases hmem with hmem | hmem
    · rcases List.mem_map.1 hmem with ⟨b, _, hba⟩
      exact Event.noConfusion hba
    · simp at hmem

/-- C6: an action that was not registered before the first trigger is
never executed — it is not part of the primary run snapshot, and under the
(default) do-nothing behaviour nothing ever runs it afterwards, however
many `AddActions` calls add it after the trigger. -/
theorem claim_post_shutdown_do_nothing (order : Order) (signals : List Nat)
    (pre post : List Op) (op : Op) (a : Nat)
    (h1 : (execOps (NewShutdownActions order signals) pre).shutdownDone = false)
    (h2 : Triggers (execOps (NewShutdownActions order signals) pre) op)
    (h3 : a ∉ (execOps (NewShutdownActions order signals) pre).actions) :
    Event.run a ∉
      (execOps (NewShutdownActions order signals) (pre ++ op :: post)).trace := by
  obtain ⟨hp, heq, hrun, _, _, _⟩ := exec_trigger_core order signals pre post op h1 h2
  rw [heq]
  intro hmem
  rcases List.mem_append.1 hmem with hmem | hmem
  · rcases List.mem_append.1 hmem with hmem | hmem
    · have : a ∈ runEvents hp := by
        unfold runEvents
        exact List.mem_filterMap.2 ⟨Event.run a, hmem, rfl⟩
      rw [hrun] at this
      cases this
    · rcases List.mem_map.1 hmem with ⟨b, hb, hba⟩
      injection hba with hba'
      exact h3 ((mem_shutdownRunList order _ a).1 (hba' ▸ hb))
  · simp at hmem

/-- C10: triggering a coordinator whose registry is empty executes nothing,
still closes the completion channel exactly once, and every subsequent
`Wait()` returns. -/
theorem claim_empty_registry_completes (order : Order) (signals : List Nat)
    (pre post : List Op)
    (h1 : (execOps (NewShutdownActions order signals) pre).shutdownDone = false)
    (h2 : (execOps (NewShutdownActions order signals) pre).actions = []) :
    runEvents (execOps (NewShutdownActions order signals) (pre ++ Op.shutdown :: post)).trace = []
    ∧ ((execOps (NewShutdownActions order signals) (pre ++ Op.shutdown :: post)).trace).count
        Event.closeShutdownCh = 1
    ∧ WaitReturns (execOps (NewShutdownActions order signals) (pre ++ Op.shutdown :: post)) := by
  obtain ⟨hp, heq, hrun, hcl, _, _⟩ :=
    exec_trigger_core order signals pre post Op.shutdown h1 trivial
  refine ⟨?_, ?_, ?_⟩
  · rw [heq, runEvents_append, runEvents_append, hrun, runEvents_map_run, runEvents_close, h2]
    rfl
  · rw [heq]
    simp [List.count_append, count_close_map_run, List.count_eq_zero.mpr hcl]
  · unfold WaitReturns
    rw [heq]
    simp

end Safedown

namespace SafedownInit

open Safedown (Order FirstInFirstDone FirstInLastDone shutdownRunList)

/-- State of a `ShutdownActions` value in the `Initialise`-style version.
The Go field `stopCh` can be nil (coordinator not initialised), which is
modelled by `Option Bool`: `none` is a nil channel, `some false` an open
channel, `some true` a closed one.  Go panics are modelled by the `Bool`
component of the results of `Initialise` and `Shutdown` (`true` means the
call panicked). -/
structure ShutdownActions where
  order : Order
  actions : List Nat
  onSignalFunc : Option Nat
  stopCh : Option Bool
  stopOnce : Bool
  shutdownDone : Bool
  executed : List Nat
  listenerStarted : Bool
  listeningSignals : List Nat
deriving DecidableEq, Repr

/-- The zero value of the Go struct (`sa := &ShutdownActions{}` or a plain
`var sa ShutdownActions`): every field at its zero value — in particular a
nil `stopCh`. -/
def zeroValue : ShutdownActions :=
  { order := false, actions := [], onSignalFunc := none, stopCh := none,
    stopOnce := false, shutdownDone := false, executed := [],
    listenerStarted := false, listeningSignals := [] }

/-- Go `closeStopCh`: `stopOnce.Do(func() { close(stopCh) })`. -/
def closeStopCh (sa : ShutdownActions) : ShutdownActions :=
  if sa.stopOnce then sa else { sa with stopOnce := true, stopCh := some true }

/-- Go `Initialise(sa, order, signals...)`: panics (`true` in the first
component, state untouched) when the actions were already initialised
(`sa.stopCh != nil`); otherwise sets the order, creates the stop channel,
and either closes it again immediately (no signals to listen for) or
starts the listener goroutine bound to `signals`. -/
def Initialise (sa : ShutdownActions) (order : Order) (signals : List Nat) :
    Bool × ShutdownActions :=
  if sa.stopCh ≠ none then (true, sa)
  else
    let sa1 := { sa with order := order, stopCh := some false }
    if signals.length = 0 then (false, closeStopCh sa1)
    else (false, { sa1 with listenerStarted := true, listeningSignals := signals })

/-- Go `NewShutdownActions(order, signals...)`: `sa := &ShutdownActions{};
Initialise(sa, order, signals...); return sa`. -/
def NewShutdownActions (order : Order) (signals : List Nat) : ShutdownActions :=
  (Initialise zeroValue order signals).2

/-- Go `shutdown`: `shutdownOnce.Do(...)` running the actions in order. -/
def shutdown (sa : ShutdownActions) : ShutdownActions :=
  if sa.shutdownDone then sa
  else { sa with
    shutdownDone := true
    executed := sa.executed ++ shutdownRunList sa.order sa.actions }

/-- Go `Shutdown()`: panics when the actions have not been initialised
(`sa.stopCh == nil`); otherwise closes the stop channel and runs the
shutdown actions. -/
def Shutdown (sa : ShutdownActions) : Bool × ShutdownActions :=
  if sa.stopCh = none then (true, sa)
  else (false, shutdown (closeStopCh sa))

/-- C8: initialising an already initialised coordinator (stop channel
non-nil) panics, before any field has been assigned, so the state is
returned unchanged. -/
theorem claim_initialise_twice_panics (sa : ShutdownActions) (order : Order)
    (signals : List Nat) (h : sa.stopCh ≠ none) :
    Initialise sa order signals = (true, sa) := by
  unfold Initialise
  rw [if_pos h]

/-- C9: `Shutdown()` on a never-initialised coordinator (stop channel nil)
panics, with the state unchanged; on any initialised coordinator (stop
channel non-nil) it does not panic. -/
theorem claim_shutdown_uninitialised_panics (sa : ShutdownActions) :
    (sa.stopCh = none → Shutdown sa = (true, sa))
    ∧ (sa.stopCh ≠ none → (Shutdown sa).1 = false) := by
  constructor
  · intro h
    unfold Shutdown
    rw [if_pos h]
  · intro h
    unfold Shutdown
    rw [if_neg h]

/-- C5: for every order, constructing with an empty signal list starts no
background listener and immediately closes the stop event, and
constructing with a non-empty signal list starts a listener bound to
exactly those signals — in both the `Wait`-style version
(`Safedown.NewShutdownActions`) and the `Initialise`-style version. -/
theorem claim_construction_listener (order : Order) (signals : List Nat) :
    (signals = [] →
      (Safedown.NewShutdownActions order signals).listenerStarted = false
      ∧ (Safedown.NewShutdownActions order signals).stopClosed = true
      ∧ (NewShutdownActions order signals).listenerStarted = false
      ∧ (NewShutdownActions order signals).stopCh = some true)
    ∧ (signals ≠ [] →
      (Safedown.NewShutdownActions order signals).listenerStarted = true
      ∧ (Safedown.NewShutdownActions order signals).listeningSignals = signals
      ∧ (NewShutdownActions order signals).listenerStarted = true
      ∧ (NewShutdownActions order signals).listeningSignals = signals) := by
  constructor
  · intro h
    subst h
    exact ⟨rfl, rfl, rfl, rfl⟩
  · intro h
    have hl : ¬ (signals.length = 0) := by
      simpa [List.length_eq_zero] using h
    refine ⟨?_, ?_, ?_, ?_⟩
    · unfold Safedown.NewShutdownActions
      rw [if_neg hl]
    · unfold Safedown.NewShutdownActions
      rw [if_neg hl]
    · unfold NewShutdownActions Initialise
      rw [if_neg (by simp [zeroValue]), if_neg hl]
    · unfold NewShutdownActions Initialise
      rw [if_neg (by simp [zeroValue]), if_neg hl]

end SafedownInit

namespace SafedownPost

open Safedown (Order FirstInFirstDone FirstInLastDone)

/-- Modelled from the spec: the post-shutdown admission state of the
`RunCoordinately`/`PerformCoordinately` strategy.  The implementation of
the post-shutdown strategies (`UsePostShutdownStrategy`,
`PerformCoordinately`) is referenced by the repository's tests but is not
among the provided sources; per the spec, a late action "is appended to a
secondary FIFO/LIFO queue (same Ordering Policy as the primary run applies
to this queue's own admission/removal order)" and "a single drain worker
is (re)used". -/
structure PostState where
  order : Order
  queue : List Nat
  draining : Bool
  executed : List Nat
deriving DecidableEq, Repr

/-- Modelled from the spec: admitting a post-shutdown action under
`RunCoordinately` appends it to the secondary queue; "if no worker is
currently active, admitting an action starts one". -/
def acceptLate (s : PostState) (a : Nat) : PostState :=
  if s.draining then { s with queue := s.queue ++ [a] }
  else { s with queue := s.queue ++ [a], draining := true }

/-- Modelled from the spec: one step of the drain worker — "the worker
removes and executes one queued action at a time — respecting the Ordering
Policy relative to the queue's current contents at each removal — and
stops when the queue is empty".  `FirstInFirstDone` removes from the
front, `FirstInLastDone` removes the most recently admitted action. -/
def drainStep (s : PostState) : PostState :=
  if s.draining = false then s
  else
    match s.queue with
    | [] => { s with draining := false }
    | a :: rest =>
      if s.order = FirstInFirstDone then
        { s with queue := rest, executed := s.executed ++ [a] }
      else
        { s with
          queue := (a :: rest).dropLast
          executed := s.executed ++ [(a :: rest).getLast (List.cons_ne_nil a rest)] }

/-- A post-shutdown interaction: an `AddActions` admission of one action,
or one execution step of the drain worker. -/
inductive PostOp where
  | late : Nat → PostOp
  | step : PostOp
deriving DecidableEq, Repr

def applyPostOp (s : PostState) : PostOp → PostState
  | .late a => acceptLate s a
  | .step => drainStep s

def execPost (s : PostState) (ops : List PostOp) : PostState :=
  ops.foldl applyPostOp s

/-- The post-shutdown state right after the primary run has completed:
empty queue, no active worker. -/
def initPost (order : Order) : PostState :=
  { order := order, queue := [], draining := false, executed := [] }

/-- The actions admitted by an interaction sequence, in admission order. -/
def lateAdded (ops : List PostOp) : List Nat :=
  ops.filterMap fun op =>
    match op with
    | .late a => some a
    | .step => none

theorem acceptLate_exec_queue (s : PostState) (a : Nat) :
    (acceptLate s a).executed ++ (acceptLate s a).queue = s.executed ++ (s.queue ++ [a]) := by
  unfold acceptLate
  split <;> rfl

theorem acceptLate_order_eq (s : PostState) (a : Nat) : (acceptLate s a).order = s.order := by
  unfold acceptLate
  split <;> rfl

theorem drainStep_order_eq (s : PostState) : (drainStep s).order = s.order := by
  unfold drainStep
  split
  · rfl
  · split
    · rfl
    · split <;> rfl

/-- Each drain step moves one action from the queue to the executed list:
the combined multiset is unchanged. -/
theorem drainStep_count (s : PostState) (x : Nat) :
    ((drainStep s).executed ++ (drainStep s).queue).count x
      = (s.executed ++ s.queue).count x := by
  unfold drainStep
  split
  · rfl
  · split
    · next hq => simp [List.count_append, hq]
    · next a rest hq =>
      split
      · simp [List.count_append, hq, List.count_cons]
      · have key : (a :: rest).dropLast ++ [(a :: rest).getLast (List.cons_ne_nil a rest)]
            = a :: rest := List.dropLast_append_getLast _
        have hc : (((a :: rest).dropLast).count x
              + ([(a :: rest).getLast (List.cons_ne_nil a rest)]).count x)
            = (a :: rest).count x := by
          rw [← List.count_append, key]
        simp only [List.count_append, hq]
        omega

/-- Under the FIFO policy the drain preserves the concatenation
`executed ++ queue` exactly, so actions are executed in admission order. -/
theorem drainStep_exec_queue_fifo (s : PostState) (h : s.order = FirstInFirstDone) :
    (drainStep s).executed ++ (drainStep s).queue = s.executed ++ s.queue := by
  unfold drainStep
  split
  · rfl
  · split <;> simp_all

theorem execPost_fifo_inv (ops : List PostOp) (s : PostState)
    (h : s.order = FirstInFirstDone) :
    (execPost s ops).executed ++ (execPost s ops).queue
      = (s.executed ++ s.queue) ++ lateAdded ops := by
  induction ops generalizing s with
  | nil => simp [execPost, lateAdded]
  | cons op ops ih =>
    cases op with
    | late a =>
      have step1 : execPost s (PostOp.late a :: ops) = execPost (acceptLate s a) ops := rfl
      rw [step1, ih _ ((acceptLate_order_eq s a).trans h), acceptLate_exec_queue]
      simp [lateAdded, List.append_assoc]
    | step =>
      have step1 : execPost s (PostOp.step :: ops) = execPost (drainStep s) ops := rfl
      rw [step1, ih _ ((drainStep_order_eq s).trans h), drainStep_exec_queue_fifo s h]
      simp [lateAdded]

theorem execPost_count_inv (ops : List PostOp) (s : PostState) (x : Nat) :
    ((execPost s ops).executed ++ (execPost s ops).queue).count x
      = (s.executed ++ s.queue).count x + (lateAdded ops).count x := by
  induction ops generalizing s with
  | nil => simp [execPost, lateAdded]
  | cons op ops ih =>
    cases op with
    | late a =>
      have step1 : execPost s (PostOp.late a :: ops) = execPost (acceptLate s a) ops := rfl
      have hlist : ((acceptLate s a).executed ++ (acceptLate s a).queue).count x
          = (s.executed ++ (s.queue ++ [a])).count x := by
        rw [acceptLate_exec_queue]
      rw [step1, ih, hlist]
      simp [lateAdded, List.count_append, List.count_cons]
      omega
    | step =>
      have step1 : execPost s (PostOp.step :: ops) = execPost (drainStep s) ops := rfl
      rw [step1, ih, drainStep_count]
      simp [lateAdded]

theorem execPost_append (s : PostState) (l1 l2 : List PostOp) :
    execPost s (l1 ++ l2) = execPost (execPost s l1) l2 :=
  List.foldl_append _ _ _ _

theorem applyPostOp_order_eq (s : PostState) (op : PostOp) :
    (applyPostOp s op).order = s.order := by
  cases op with
  | late a => exact acceptLate_order_eq s a
  | step => exact drainStep_order_eq s

theorem execPost_order_eq (s : PostState) (ops : List PostOp) :
    (execPost s ops).order = s.order := by
  induction ops generalizing s with
  | nil => rfl
  | cons op ops ih => exact (ih _).trans (applyPostOp_order_eq s op)

theorem execPost_invariant (P : PostState → Prop)
    (h : ∀ s op, P s → P (applyPostOp s op)) (s : PostState) (hs : P s)
    (ops : List PostOp) : P (execPost s ops) := by
  induction ops generalizing s with
  | nil => exact hs
  | cons op ops ih => exact ih _ (h _ _ hs)

/-- Admitting an action always leaves an active worker: either one was
already draining, or the admission just started one. -/
theorem acceptLate_draining (s : PostState) (a : Nat) :
    (acceptLate s a).draining = true := by
  unfold acceptLate
  split
  · next h' => simpa using h'
  · rfl

theorem drainStep_draining_queue (s : PostState)
    (hs : s.draining = false → s.queue = []) :
    (drainStep s).draining = false → (drainStep s).queue = [] := by
  unfold drainStep
  split
  · exact hs
  · split <;> intro hd <;> (try split at hd) <;> simp_all

/-- Reachable states never have an idle worker with a non-empty queue:
the worker only stops once the queue is empty. -/
theorem draining_false_queue_nil (order : Order) (ops : List PostOp)
    (hd : (execPost (initPost order) ops).draining = false) :
    (execPost (initPost order) ops).queue = [] := by
  have key := execPost_invariant (fun s => s.draining = false → s.queue = [])
    (fun s op hs => by
      cases op with
      | late a =>
        intro hdd
        rw [show applyPostOp s (PostOp.late a) = acceptLate s a from rfl,
          acceptLate_draining] at hdd
        cases hdd
      | step => exact drainStep_draining_queue s hs)
    (initPost order) (fun _ => rfl) ops
  exact key hd

/-- A LIFO post-shutdown state with an active drain worker. -/
def lifoState (q e : List Nat) : PostState :=
  { order := FirstInLastDone, queue := q, draining := true, executed := e }

theorem drainStep_lifo_eq (a : Nat) (rest e : List Nat) :
    drainStep (lifoState (a :: rest) e)
      = lifoState ((a :: rest).dropLast)
          (e ++ [(a :: rest).getLast (List.cons_ne_nil a rest)]) := rfl

/-- Under the LIFO policy, running the worker once per queued action
executes the whole queue in reverse admission order. -/
theorem lifo_drain_all (n : Nat) :
    ∀ q e : List Nat, q.length = n →
      (execPost (lifoState q e) (List.replicate n PostOp.step)).executed = e ++ q.reverse
      ∧ (execPost (lifoState q e) (List.replicate n PostOp.step)).queue = [] := by
  induction n with
  | zero =>
    intro q e hq
    rw [List.length_eq_zero] at hq
    subst hq
    exact ⟨by simp [execPost, lifoState], rfl⟩
  | succ n ih =>
    intro q e hq
    cases q with
    | nil => exact absurd hq (by simp)
    | cons a rest =>
      have hstep : execPost (lifoState (a :: rest) e) (List.replicate (n + 1) PostOp.step)
          = execPost (drainStep (lifoState (a :: rest) e)) (List.replicate n PostOp.step) := by
        rw [List.replicate_succ]
        rfl
      have hlen : ((a :: rest).dropLast).length = n := by
        have hq' : (a :: rest).length = n + 1 := hq
        simp [List.length_dropLast] at hq' ⊢
        omega
      obtain ⟨ih1, ih2⟩ := ih ((a :: rest).dropLast)
        (e ++ [(a :: rest).getLast (List.cons_ne_nil a rest)]) hlen
      have hrev : (a :: rest).reverse
          = (a :: rest).getLast (List.cons_ne_nil a rest)
            :: ((a :: rest).dropLast).reverse := by
        conv_lhs => rw [← List.dropLast_append_getLast (List.cons_ne_nil a rest)]
        rw [List.reverse_append]
        rfl
      constructor
      · rw [hstep, drainStep_lifo_eq a rest e, ih1, hrev]
        simp
      · rw [hstep, drainStep_lifo_eq a rest e]
        exact ih2

theorem lifo_drain_state (s : PostState) (h : s.order = FirstInLastDone)
    (hd : s.draining = true) :
    (execPost s (List.replicate s.queue.length PostOp.step)).executed
      = s.executed ++ s.queue.reverse
    ∧ (execPost s (List.replicate s.queue.length PostOp.step)).queue = [] := by
  cases s with
  | mk o q d e =>
    simp only at h hd
    subst h
    subst hd
    exact lifo_drain_all q.length q e rfl

/-- C7: under the coordinated post-shutdown strategy, the first action
admitted while no worker is active starts the drain worker; for the
`FirstInFirstDone` policy the executed actions followed by the still
queued ones are exactly the admitted actions in admission order; for the
`FirstInLastDone` policy, draining the queue from any reachable point
executes the actions queued at that moment — including ones admitted
while the worker was already draining — in reverse admission order among
themselves; and for either policy every admitted action is executed or
still queued exactly as often as it was admitted. -/
theorem claim_run_coordinately (order : Order) (ops : List PostOp) :
    (∀ s : PostState, ∀ a : Nat, s.draining = false → (acceptLate s a).draining = true)
    ∧ (order = FirstInFirstDone →
        (execPost (initPost order) ops).executed ++ (execPost (initPost order) ops).queue
          = lateAdded ops)
    ∧ (order = FirstInLastDone →
        (execPost (initPost order)
            (ops ++ List.replicate ((execPost (initPost order) ops).queue).length
              PostOp.step)).executed
          = (execPost (initPost order) ops).executed
            ++ ((execPost (initPost order) ops).queue).reverse)
    ∧ (∀ x : Nat,
        ((execPost (initPost order) ops).executed
            ++ (execPost (initPost order) ops).queue).count x
          = (lateAdded ops).count x) := by
  refine ⟨?_, ?_, ?_, ?_⟩
  · intro s a hs
    unfold acceptLate
    rw [if_neg (by simp [hs])]
  · intro h
    rw [execPost_fifo_inv ops (initPost order) h]
    simp [initPost]
  · intro h
    rw [execPost_append]
    cases hd : (execPost (initPost order) ops).draining with
    | true =>
      exact (lifo_drain_state _ ((execPost_order_eq (initPost order) ops).trans h) hd).1
    | false =>
      rw [draining_false_queue_nil order ops hd]
      simp [execPost]
  · intro x
    rw [execPost_count_inv ops (initPost order) x]
    simp [initPost]

end SafedownPost

namespace Safedown

/-- Concrete instance of C1: three actions, two `Shutdown()` calls and a
late registration; action 20 runs exactly once and the completion channel
closes exactly once. -/
theorem claim_primary_run_exactly_once_witness :
    (execOps (NewShutdownActions FirstInFirstDone [])
        [Op.addActions [10, 20, 30]]).shutdownDone = false
    ∧ (runEvents (execOps (NewShutdownActions FirstInFirstDone [])
        ([Op.addActions [10, 20, 30]] ++ Op.shutdown :: [Op.shutdown, Op.addActions [40]])).trace).count 20
      = ((execOps (NewShutdownActions FirstInFirstDone [])
          [Op.addActions [10, 20, 30]]).actions).count 20
    ∧ ((execOps (NewShutdownActions FirstInFirstDone [])
        ([Op.addActions [10, 20, 30]] ++ Op.shutdown :: [Op.shutdown, Op.addActions [40]])).trace).count
        Event.closeShutdownCh = 1 := by
  refine ⟨(by decide), ?_, ?_⟩
  · exact (claim_primary_run_exactly_once FirstInFirstDone [] [Op.addActions [10, 20, 30]]
      [Op.shutdown, Op.addActions [40]] Op.shutdown (by decide) trivial).1 20
  · exact (claim_primary_run_exactly_once FirstInFirstDone [] [Op.addActions [10, 20, 30]]
      [Op.shutdown, Op.addActions [40]] Op.shutdown (by decide) trivial).2.1

/-- Concrete instance of C2: for `FirstInFirstDone`, actions [3, 7, 9] are
executed in exactly that order. -/
theorem claim_primary_run_order_witness :
    (execOps (NewShutdownActions FirstInFirstDone [])
        [Op.addActions [3, 7, 9]]).shutdownDone = false
    ∧ runEvents (execOps (NewShutdownActions FirstInFirstDone [])
        ([Op.addActions [3, 7, 9]] ++ Op.shutdown :: [])).trace = [3, 7, 9] := by
  refine ⟨(by decide), ?_⟩
  have h := (claim_primary_run_order FirstInFirstDone [] [Op.addActions [3, 7, 9]] []
    Op.shutdown (by decide) trivial).1 rfl
  rw [h]
  decide

/-- Concrete instance of C3: after a `Shutdown()` trigger `Wait()`
returns, while without any trigger it blocks. -/
theorem claim_wait_after_completion_witness :
    (execOps (NewShutdownActions FirstInLastDone [])
        [Op.addActions [1, 2]]).shutdownDone = false
    ∧ WaitReturns (execOps (NewShutdownActions FirstInLastDone [])
        ([Op.addActions [1, 2]] ++ Op.shutdown :: []))
    ∧ (execOps (NewShutdownActions FirstInLastDone []) [Op.addActions [5]]).shutdownDone = false
    ∧ ¬ WaitReturns (execOps (NewShutdownActions FirstInLastDone []) [Op.addActions [5]]) := by
  refine ⟨(by decide), ?_, (by decide), ?_⟩
  · exact (claim_wait_after_completion FirstInLastDone [] [Op.addActions [1, 2]] []
      Op.shutdown (by decide) trivial).2.2.1
  · exact (claim_wait_after_completion FirstInLastDone [] [Op.addActions [1, 2]] []
      Op.shutdown (by decide) trivial).2.2.2 [Op.addActions [5]] (by decide)

/-- Concrete instance of C4: watching signal 7 with hook 99 set and two
actions, delivery of 7 yields hook-then-runs-then-close; an explicit
`Shutdown()` instead never invokes the hook. -/
theorem claim_on_signal_hook_witness :
    (execOps (NewShutdownActions FirstInLastDone [7])
        [Op.setOnSignal (some 99), Op.addActions [1, 2]]).onSignalFunc = some 99
    ∧ (execOps (NewShutdownActions FirstInLastDone [7])
        ([Op.setOnSignal (some 99), Op.addActions [1, 2]] ++ Op.signalArrives 7 :: [])).trace
      = [Event.hook 7, Event.run 2, Event.run 1, Event.closeShutdownCh]
    ∧ Event.hook 7 ∉ (execOps (NewShutdownActions FirstInLastDone [7])
        ([Op.setOnSignal (some 99), Op.addActions [1, 2]] ++ Op.shutdown :: [])).trace := by
  have h := claim_on_signal_hook FirstInLastDone [7]
    [Op.setOnSignal (some 99), Op.addActions [1, 2]] [] 7 99
    (by decide) (by decide) (by decide) (by decide) (by decide)
  refine ⟨(by decide), ?_, h.2 [] 7⟩
  rw [h.1]
  decide

/-- Concrete instance of C6: action 42, added only after the trigger, is
never executed. -/
theorem claim_post_shutdown_do_nothing_witness :
    ((execOps (NewShutdownActions FirstInLastDone []) [Op.addActions [1]]).shutdownDone = false
      ∧ 42 ∉ (execOps (NewShutdownActions FirstInLastDone []) [Op.addActions [1]]).actions)
    ∧ Event.run 42 ∉ (execOps (NewShutdownActions FirstInLastDone [])
        ([Op.addActions [1]] ++ Op.shutdown :: [Op.addActions [42]])).trace := by
  refine ⟨(by decide), ?_⟩
  exact claim_post_shutdown_do_nothing FirstInLastDone [] [Op.addActions [1]]
    [Op.addActions [42]] Op.shutdown 42 (by decide) trivial (by decide)

/-- Concrete instance of C10: a fresh coordinator with no actions, shut
down explicitly: nothing runs and `Wait()` returns. -/
theorem claim_empty_registry_completes_witness :
    (execOps (NewShutdownActions FirstInFirstDone []) []).actions = []
    ∧ runEvents (execOps (NewShutdownActions FirstInFirstDone [])
        ([] ++ Op.shutdown :: [])).trace = []
    ∧ WaitReturns (execOps (NewShutdownActions FirstInFirstDone []) ([] ++ Op.shutdown :: [])) := by
  have h := claim_empty_registry_completes FirstInFirstDone [] [] [] (by decide) (by decide)
  exact ⟨(by decide), h.1, h.2.2⟩

end Safedown

namespace SafedownInit

open Safedown (FirstInFirstDone FirstInLastDone)

/-- Concrete instance of C8: initialising an already constructed
coordinator a second time panics and returns the state unchanged. -/
theorem claim_initialise_twice_panics_witness :
    (NewShutdownActions FirstInFirstDone []).stopCh ≠ none
    ∧ Initialise (NewShutdownActions FirstInFirstDone []) FirstInLastDone [3]
      = (true, NewShutdownActions FirstInFirstDone []) := by
  refine ⟨(by decide), ?_⟩
  exact claim_initialise_twice_panics (NewShutdownActions FirstInFirstDone [])
    FirstInLastDone [3] (by decide)

/-- Concrete instance of C9: `Shutdown()` on the zero value panics, while
on a constructed coordinator it does not. -/
theorem claim_shutdown_uninitialised_panics_witness :
    Shutdown zeroValue = (true, zeroValue)
    ∧ (Shutdown (NewShutdownActions FirstInFirstDone [])).1 = false := by
  exact ⟨(claim_shutdown_uninitialised_panics zeroValue).1 rfl,
    (claim_shutdown_uninitialised_panics (NewShutdownActions FirstInFirstDone [])).2 (by decide)⟩

/-- Concrete instance of C5: no signals gives a closed stop event and no
listener; signals [3, 4] give a listener bound to [3, 4]. -/
theorem claim_construction_listener_witness :
    ((Safedown.NewShutdownActions FirstInLastDone []).listenerStarted = false
      ∧ (Safedown.NewShutdownActions FirstInLastDone []).stopClosed = true
      ∧ (NewShutdownActions FirstInLastDone []).listenerStarted = false
      ∧ (NewShutdownActions FirstInLastDone []).stopCh = some true)
    ∧ ((Safedown.NewShutdownActions FirstInLastDone [3, 4]).listenerStarted = true
      ∧ (Safedown.NewShutdownActions FirstInLastDone [3, 4]).listeningSignals = [3, 4]
      ∧ (NewShutdownActions FirstInLastDone [3, 4]).listenerStarted = true
      ∧ (NewShutdownActions FirstInLastDone [3, 4]).listeningSignals = [3, 4]) := by
  exact ⟨(claim_construction_listener FirstInLastDone []).1 rfl,
    (claim_construction_listener FirstInLastDone [3, 4]).2 (by decide)⟩

end SafedownInit

namespace SafedownPost

open Safedown (FirstInFirstDone FirstInLastDone)

/-- Concrete instance of C7: the first late action starts the worker; with
the FIFO policy the admitted actions 4, 6, 5 drain in admission order; and
with the LIFO policy — the order of the repository's `PerformCoordinately`
test — action 4 is admitted and executed first, then 6 and 5 are admitted
while the worker drains, and the full execution order is 4, 5, 6 exactly
as the test expects. -/
theorem claim_run_coordinately_witness :
    ((initPost FirstInFirstDone).draining = false
      ∧ (acceptLate (initPost FirstInFirstDone) 4).draining = true)
    ∧ (execPost (initPost FirstInFirstDone)
          [PostOp.late 4, PostOp.late 6, PostOp.step, PostOp.late 5,
            PostOp.step, PostOp.step]).executed
        ++ (execPost (initPost FirstInFirstDone)
          [PostOp.late 4, PostOp.late 6, PostOp.step, PostOp.late 5,
            PostOp.step, PostOp.step]).queue = [4, 6, 5]
    ∧ (execPost (initPost FirstInLastDone)
          ([PostOp.late 4, PostOp.step, PostOp.late 6, PostOp.late 5]
            ++ List.replicate ((execPost (initPost FirstInLastDone)
                [PostOp.late 4, PostOp.step, PostOp.late 6, PostOp.late 5]).queue).length
              PostOp.step)).executed = [4, 5, 6]
    ∧ ((execPost (initPost FirstInFirstDone)
          [PostOp.late 4, PostOp.late 6, PostOp.step, PostOp.late 5,
            PostOp.step, PostOp.step]).executed
        ++ (execPost (initPost FirstInFirstDone)
          [PostOp.late 4, PostOp.late 6, PostOp.step, PostOp.late 5,
            PostOp.step, PostOp.step]).queue).count 6 = 1 := by
  refine ⟨⟨(by decide), ?_⟩, ?_, ?_, ?_⟩
  · exact (claim_run_coordinately FirstInFirstDone []).1 (initPost FirstInFirstDone) 4 rfl
  · have h := (claim_run_coordinately FirstInFirstDone
      [PostOp.late 4, PostOp.late 6, PostOp.step, PostOp.late 5,
        PostOp.step, PostOp.step]).2.1 rfl
    rw [h]
    decide
  · have h := (claim_run_coordinately FirstInLastDone
      [PostOp.late 4, PostOp.step, PostOp.late 6, PostOp.late 5]).2.2.1 rfl
    exact h.trans (by decide)
  · have h := (claim_run_coordinately FirstInFirstDone
      [PostOp.late 4, PostOp.late 6, PostOp.step, PostOp.late 5,
        PostOp.step, PostOp.step]).2.2.2 6
    rw [h]
    decide

end SafedownPost
